import Mathlib

/-!
Verification development for the execution-context core of the Clarity
smart-contract VM (`src/vm/contexts.rs`).

Modelling conventions:
* `PrincipalData` and `AssetIdentifier` are opaque domain types usable only as
  hashable keys; both are modelled as `Nat`, and the nested
  `HashMap<PrincipalData, HashMap<AssetIdentifier, _>>` pair of maps is
  flattened to an association list keyed by the pair
  `(principal, asset) : Nat × Nat`.  This is observation-equivalent to the
  source: an inner map is created exactly when the first `(principal, asset)`
  entry is written, an inner-map read with default is a flattened read with
  default, and all claims observe the maps only through per-key lookups.
* `i128` is modelled as `Int` together with the explicit bounds
  `i128Min ≤ _ ≤ i128Max`; `checked_add` succeeds exactly when the exact sum
  lies within those bounds.
* Rust `&mut self` methods become state-passing functions returning the new
  state; a method that can `panic!` / fail an `assert!` returns `Option`
  (`none` = abort) so that panic paths are distinguished from recoverable
  `Err` results.
* The external collaborators (`ClarityDatabase`, `parser::parse`, `eval`,
  `DefinedFunction::execute_apply`, `Contract::initialize`) are out of scope
  per the specification; the database is modelled as the trace of
  `begin`/`commit`/`roll_back` calls issued to it, and the other collaborators
  are taken as oracle function parameters.
-/

set_option maxRecDepth 8192

namespace Clarity

/-- Error type covering the error values the embedded code can produce.
`noSuchContract` stands for an arbitrary recoverable database error returned
by `ClarityDatabase::get_contract`. -/
inductive Err where
  | arithmeticOverflow
  | maxContextDepthReached
  | contractMustReturnBoolean
  | parseError
  | noSuchContract
  | interpreterError
  | failedToConstructAssetTable
deriving DecidableEq

/-- Clarity `Value`: the `Response { committed, data }` variant is the one
`handle_tx_result` inspects; `int` and `bool` stand for the non-Response
values. -/
inductive Value where
  | int : Int → Value
  | bool : Bool → Value
  | response : Bool → Value → Value
deriving DecidableEq

/-- Flattened key `(principal, asset identifier)` for the asset-map tables. -/
abbrev AKey := Nat × Nat

/-- HashMap lookup on the association-list model: first matching key wins. -/
def alookup {α : Type} : List (AKey × α) → AKey → Option α
  | [], _ => none
  | (k, v) :: rest, k' => if k' = k then some v else alookup rest k'

/-- Remove every binding of key `k` (helper for HashMap `insert`). -/
def eraseKey {α : Type} (k : AKey) : List (AKey × α) → List (AKey × α)
  | [] => []
  | (k', v) :: rest =>
    if k' = k then eraseKey k rest else (k', v) :: eraseKey k rest

/-- HashMap `insert`: bind `k` to `v`, replacing any previous binding. -/
def insertKey {α : Type} (k : AKey) (v : α) (m : List (AKey × α)) :
    List (AKey × α) :=
  (k, v) :: eraseKey k m

theorem alookup_eraseKey {α : Type} (k k' : AKey) (m : List (AKey × α)) :
    alookup (eraseKey k m) k' = if k' = k then none else alookup m k' := by
  induction m with
  | nil => by_cases h : k' = k <;> simp [eraseKey, alookup, h]
  | cons kv rest ih =>
    obtain ⟨k0, v0⟩ := kv
    by_cases h0 : k0 = k
    · subst h0
      by_cases h1 : k' = k0
      · subst h1
        simp [eraseKey, alookup, ih]
      · simp [eraseKey, alookup, h1, ih]
    · by_cases h1 : k' = k0
      · subst h1
        simp [eraseKey, alookup, h0, Ne.symm h0]
      · simp [eraseKey, alookup, h0, h1, ih]

theorem alookup_insertKey {α : Type} (k k' : AKey) (v : α)
    (m : List (AKey × α)) :
    alookup (insertKey k v m) k' = if k' = k then some v else alookup m k' := by
  by_cases h : k' = k <;> simp [insertKey, alookup, alookup_eraseKey, h]

theorem alookup_eq_none_of_not_mem {α : Type} (m : List (AKey × α)) (k : AKey)
    (h : k ∉ m.map Prod.fst) : alookup m k = none := by
  induction m with
  | nil => rfl
  | cons kv rest ih =>
    obtain ⟨k0, v0⟩ := kv
    simp only [List.map_cons, List.mem_cons] at h
    push_neg at h
    simp [alookup, h.1, ih h.2]

/-- The i128 bounds. -/
def i128Min : Int := -(2 ^ 127)

/-- The i128 maximum. -/
def i128Max : Int := 2 ^ 127 - 1

/-- Model of `i128::checked_add`: the exact sum when it fits in `i128`,
`none` on overflow (the value is never wrapped). -/
def checked_add (a b : Int) : Option Int :=
  if i128Min ≤ a + b ∧ a + b ≤ i128Max then some (a + b) else none

/-- Model of `AssetMap` (the spec's `AssetLedger`), with the two nested hash maps
flattened to association lists keyed by `(principal, asset)`. -/
structure AssetMap where
  token_map : List (AKey × Int)
  asset_map : List (AKey × List Value)
deriving DecidableEq

/-- Model of `AssetMap::new`. -/
def AssetMap.new : AssetMap := ⟨[], []⟩

/-- Model of `AssetMap::get_next_amount`: current amount for `(principal, asset)`
(absent entries read as 0) plus `amount`, with checked i128 addition. -/
def AssetMap.get_next_amount (s : AssetMap) (principal asset : Nat)
    (amount : Int) : Except Err Int :=
  let current_amount : Int := (alookup s.token_map (principal, asset)).getD 0
  match checked_add current_amount amount with
  | some n => Except.ok n
  | none => Except.error Err.arithmeticOverflow

/-- Model of `AssetMap::add_token_transfer`.  A negative `amount` panics in the source
(`none` here); otherwise the checked next amount is computed and, on success,
stored for `(principal, asset)`. -/
def AssetMap.add_token_transfer (s : AssetMap) (principal asset : Nat)
    (amount : Int) : Option (Except Err AssetMap) :=
  if amount < 0 then none
  else
    match s.get_next_amount principal asset amount with
    | Except.error e => some (Except.error e)
    | Except.ok next_amount =>
        some (Except.ok
          { s with
            token_map :=
              insertKey (principal, asset) next_amount s.token_map })

/-- Model of `AssetMap::add_asset_transfer`: append `transfered` to the NFT transfer
list for `(principal, asset)`, creating the entry on demand. This is
infallible. -/
def AssetMap.add_asset_transfer (s : AssetMap) (principal asset : Nat)
    (transfered : Value) : AssetMap :=
  { s with
    asset_map :=
      insertKey (principal, asset)
        ((alookup s.asset_map (principal, asset)).getD [] ++ [transfered])
        s.asset_map }

/-- Phase 1 of `AssetMap::commit_other`: walk `other`'s token entries in
order, computing each proposed write via `get_next_amount`; the first
overflow aborts the whole computation (the source's early `?` return). -/
def computeToAdd (s : AssetMap) : List (AKey × Int) → Except Err (List (AKey × Int))
  | [] => Except.ok []
  | (k, amount) :: rest =>
    match s.get_next_amount k.1 k.2 amount with
    | Except.error e => Except.error e
    | Except.ok next_amount =>
      match computeToAdd s rest with
      | Except.error e => Except.error e
      | Except.ok l => Except.ok ((k, next_amount) :: l)

/-- One step of phase 2 of `commit_other`: land `other`'s transfer list for a
key onto `self`'s, appending when an entry already exists. -/
def appendAsset (m : List (AKey × List Value)) (k : AKey)
    (transfers : List Value) : List (AKey × List Value) :=
  insertKey k ((alookup m k).getD [] ++ transfers) m

/-- Model of `AssetMap::commit_other` (the spec's `merge_from`).  Returned pair:
the `Result<()>` and the final state of `self` (which the source mutates in
place).  Phase 1 collects the checked token writes and aborts everything on
overflow; phase 2 lands the NFT lists; phase 3 applies the token writes. -/
def AssetMap.commit_other (s other : AssetMap) : Except Err Unit × AssetMap :=
  match computeToAdd s other.token_map with
  | Except.error e => (Except.error e, s)
  | Except.ok to_add =>
    let asset_map1 :=
      other.asset_map.foldl (fun m kv => appendAsset m kv.1 kv.2) s.asset_map
    let token_map1 :=
      to_add.foldl (fun m kv => insertKey kv.1 kv.2 m) s.token_map
    (Except.ok (), { token_map := token_map1, asset_map := asset_map1 })

/-- Token amount for `(p, a)` with absent entries read as 0. -/
def tokenAmount (s : AssetMap) (p a : Nat) : Int :=
  (alookup s.token_map (p, a)).getD 0

/-- NFT transfer list for `(p, a)` with absent entries read as `[]`. -/
def assetList (s : AssetMap) (p a : Nat) : List Value :=
  (alookup s.asset_map (p, a)).getD []

theorem get_next_amount_ok (s : AssetMap) (p a : Nat) (amount n : Int)
    (h : s.get_next_amount p a amount = Except.ok n) :
    n = tokenAmount s p a + amount := by
  unfold AssetMap.get_next_amount checked_add at h
  by_cases hb :
      i128Min ≤ (alookup s.token_map (p, a)).getD 0 + amount ∧
        (alookup s.token_map (p, a)).getD 0 + amount ≤ i128Max
  · simp only [hb, if_pos, tokenAmount] at h ⊢
    cases h
    rfl
  · simp [hb] at h

theorem computeToAdd_ok_keys (s : AssetMap) (l t : List (AKey × Int))
    (h : computeToAdd s l = Except.ok t) :
    t.map Prod.fst = l.map Prod.fst := by
  induction l generalizing t with
  | nil =>
    unfold computeToAdd at h
    cases h
    rfl
  | cons kv rest ih =>
    obtain ⟨k0, amt0⟩ := kv
    unfold computeToAdd at h
    cases hg : s.get_next_amount k0.1 k0.2 amt0 with
    | error e => rw [hg] at h; cases h
    | ok n =>
      rw [hg] at h
      cases hrest : computeToAdd s rest with
      | error e => rw [hrest] at h; cases h
      | ok t0 =>
        rw [hrest] at h
        cases h
        simp [ih t0 hrest]

theorem computeToAdd_ok_lookup (s : AssetMap) (l t : List (AKey × Int))
    (h : computeToAdd s l = Except.ok t) (k : AKey) :
    alookup t k = (alookup l k).map (fun amt => tokenAmount s k.1 k.2 + amt) := by
  induction l generalizing t with
  | nil =>
    unfold computeToAdd at h
    cases h
    rfl
  | cons kv rest ih =>
    obtain ⟨k0, amt0⟩ := kv
    unfold computeToAdd at h
    cases hg : s.get_next_amount k0.1 k0.2 amt0 with
    | error e => rw [hg] at h; cases h
    | ok n =>
      rw [hg] at h
      cases hrest : computeToAdd s rest with
      | error e => rw [hrest] at h; cases h
      | ok t0 =>
        rw [hrest] at h
        cases h
        by_cases hk : k = k0
        · subst hk
          have hn := get_next_amount_ok s k.1 k.2 amt0 n hg
          simp [alookup, hn]
        · simp [alookup, hk, ih t0 hrest]

theorem alookup_foldl_insertKey {α : Type} (l : List (AKey × α))
    (hnd : (l.map Prod.fst).Nodup) (m0 : List (AKey × α)) (k : AKey) :
    alookup (l.foldl (fun m kv => insertKey kv.1 kv.2 m) m0) k =
      match alookup l k with
      | some v => some v
      | none => alookup m0 k := by
  induction l generalizing m0 with
  | nil => simp [alookup]
  | cons kv rest ih =>
    obtain ⟨k0, v0⟩ := kv
    simp only [List.map_cons, List.nodup_cons] at hnd
    rw [List.foldl_cons]
    rw [ih hnd.2]
    by_cases hk : k = k0
    · subst hk
      have hnone : alookup rest k = none :=
        alookup_eq_none_of_not_mem rest k hnd.1
      simp [hnone, alookup, alookup_insertKey]
    · simp only [alookup, hk, if_neg, alookup_insertKey]
      cases alookup rest k <;> simp [alookup_insertKey, alookup_eraseKey, hk]

theorem alookup_foldl_appendAsset (l : List (AKey × List Value))
    (hnd : (l.map Prod.fst).Nodup) (m0 : List (AKey × List Value)) (k : AKey) :
    alookup (l.foldl (fun m kv => appendAsset m kv.1 kv.2) m0) k =
      match alookup l k with
      | some vs => some ((alookup m0 k).getD [] ++ vs)
      | none => alookup m0 k := by
  induction l generalizing m0 with
  | nil => simp [alookup]
  | cons kv rest ih =>
    obtain ⟨k0, vs0⟩ := kv
    simp only [List.map_cons, List.nodup_cons] at hnd
    rw [List.foldl_cons]
    rw [ih hnd.2]
    by_cases hk : k = k0
    · subst hk
      have hnone : alookup rest k = none :=
        alookup_eq_none_of_not_mem rest k hnd.1
      simp [hnone, alookup, appendAsset, alookup_insertKey]
    · have hm0 : alookup (appendAsset m0 k0 vs0) k = alookup m0 k := by
        simp [appendAsset, alookup_insertKey, hk]
      cases hr : alookup rest k <;>
        simp [alookup, hk, hr, hm0, alookup_eraseKey]

theorem commit_other_ok_state (s other : AssetMap) (t : List (AKey × Int))
    (hct : computeToAdd s other.token_map = Except.ok t) :
    s.commit_other other =
      (Except.ok (),
        { token_map := t.foldl (fun m kv => insertKey kv.1 kv.2 m) s.token_map,
          asset_map :=
            other.asset_map.foldl (fun m kv => appendAsset m kv.1 kv.2)
              s.asset_map }) := by
  unfold AssetMap.commit_other
  rw [hct]

theorem commit_other_error_state (s other : AssetMap) (e : Err)
    (hct : computeToAdd s other.token_map = Except.error e) :
    s.commit_other other = (Except.error e, s) := by
  unfold AssetMap.commit_other
  rw [hct]

/-- Claim C1: if `commit_other` (the spec's `merge_from`) returns an error,
`self` is left exactly as it was — both the token map and the NFT map.  The
witness instantiates the claim's concrete scenario
`self = { p1→t1: 1, p2→t1: i128::MAX }`, `other = { p1→t1: 1, p2→t1: 1 }`. -/
theorem C1_commit_other_error_unchanged (s other : AssetMap) (e : Err)
    (h : (s.commit_other other).1 = Except.error e) :
    (s.commit_other other).2 = s := by
  cases hct : computeToAdd s other.token_map with
  | error e0 => rw [commit_other_error_state s other e0 hct]
  | ok t =>
    rw [commit_other_ok_state s other t hct] at h
    exact absurd h (by simp)

/-- The claim C1 scenario's `self`: `p1 = 1`, `p2 = 2`, `t1 = 10`,
`p1→t1 : 1`, `p2→t1 : i128::MAX`. -/
def am1ex : AssetMap := ⟨[((1, 10), 1), ((2, 10), i128Max)], []⟩

/-- The claim C1 scenario's `other`: `p1→t1 : 1`, `p2→t1 : 1`. -/
def am2ex : AssetMap := ⟨[((1, 10), 1), ((2, 10), 1)], []⟩

/-- Witness for C1 at the claim's concrete input: the merge returns
`ArithmeticOverflow` and `self` still maps `p1→t1` to 1 and `p2→t1` to
`i128::MAX`. -/
theorem C1_commit_other_error_unchanged_witness :
    (am1ex.commit_other am2ex).1 = Except.error Err.arithmeticOverflow
    ∧ (am1ex.commit_other am2ex).2 = am1ex
    ∧ tokenAmount (am1ex.commit_other am2ex).2 1 10 = 1
    ∧ tokenAmount (am1ex.commit_other am2ex).2 2 10 = i128Max :=
  ⟨rfl,
   C1_commit_other_error_unchanged am1ex am2ex Err.arithmeticOverflow rfl,
   by decide, by decide⟩

/-- Claim C2: when `commit_other` succeeds, every `(p, a)` token amount in
the result is `self`'s plus `other`'s (absent entries read as 0), and every
`(p, a)` NFT transfer list is `self`'s followed by `other`'s, in that order.
The `Nodup` hypotheses state that `other`'s tables are maps (HashMap keys are
unique in the source). -/
theorem C2_commit_other_merge (s other : AssetMap)
    (hT : (other.token_map.map Prod.fst).Nodup)
    (hA : (other.asset_map.map Prod.fst).Nodup)
    (h : (s.commit_other other).1 = Except.ok ()) (p a : Nat) :
    tokenAmount (s.commit_other other).2 p a
        = tokenAmount s p a + tokenAmount other p a
    ∧ assetList (s.commit_other other).2 p a
        = assetList s p a ++ assetList other p a := by
  cases hct : computeToAdd s other.token_map with
  | error e =>
    rw [commit_other_error_state s other e hct] at h
    exact absurd h (by simp)
  | ok t =>
    have hkeys := computeToAdd_ok_keys s other.token_map t hct
    have hndT : (t.map Prod.fst).Nodup := by rw [hkeys]; exact hT
    rw [commit_other_ok_state s other t hct]
    constructor
    · unfold tokenAmount
      simp only
      rw [alookup_foldl_insertKey t hndT s.token_map (p, a)]
      rw [computeToAdd_ok_lookup s other.token_map t hct (p, a)]
      cases ho : alookup other.token_map (p, a) with
      | none => simp [tokenAmount, ho]
      | some amt => simp [tokenAmount, ho]
    · unfold assetList
      simp only
      rw [alookup_foldl_appendAsset other.asset_map hA s.asset_map (p, a)]
      cases ho : alookup other.asset_map (p, a) with
      | none => simp [assetList, ho]
      | some vs => simp [assetList, ho]

/-- A `self` asset map mirroring the source's merge-combinations test. -/
def am3ex : AssetMap :=
  ⟨[((1, 10), 10)],
   [((1, 50), [Value.int 0]), ((2, 30), [Value.int 2, Value.int 5])]⟩

/-- An `other` asset map mirroring the source's merge-combinations test. -/
def am4ex : AssetMap :=
  ⟨[((1, 10), 15), ((1, 40), 1), ((2, 20), 11)],
   [((3, 30), [Value.int 10]), ((1, 30), [Value.int 1, Value.int 0]),
    ((2, 30), [Value.int 3, Value.int 4])]⟩

/-- Witness for C2 at a concrete merge: amounts add and NFT lists
concatenate parent-first. -/
theorem C2_commit_other_merge_witness :
    tokenAmount (am3ex.commit_other am4ex).2 1 10
        = tokenAmount am3ex 1 10 + tokenAmount am4ex 1 10
    ∧ assetList (am3ex.commit_other am4ex).2 2 30
        = assetList am3ex 2 30 ++ assetList am4ex 2 30
    ∧ tokenAmount (am3ex.commit_other am4ex).2 1 10 = 25
    ∧ assetList (am3ex.commit_other am4ex).2 2 30
        = [Value.int 2, Value.int 5, Value.int 3, Value.int 4] :=
  ⟨(C2_commit_other_merge am3ex am4ex (by decide) (by decide) rfl 1 10).1,
   (C2_commit_other_merge am3ex am4ex (by decide) (by decide) rfl 2 30).2,
   by decide, by decide⟩

theorem get_next_amount_ok_of_bounds (s : AssetMap) (p a : Nat) (amount : Int)
    (hb : i128Min ≤ tokenAmount s p a + amount
      ∧ tokenAmount s p a + amount ≤ i128Max) :
    s.get_next_amount p a amount = Except.ok (tokenAmount s p a + amount) := by
  unfold tokenAmount at hb ⊢
  unfold AssetMap.get_next_amount checked_add
  simp only [if_pos hb]

theorem get_next_amount_overflow (s : AssetMap) (p a : Nat) (amount : Int)
    (hb : ¬ (i128Min ≤ tokenAmount s p a + amount
      ∧ tokenAmount s p a + amount ≤ i128Max)) :
    s.get_next_amount p a amount = Except.error Err.arithmeticOverflow := by
  unfold tokenAmount at hb
  unfold AssetMap.get_next_amount checked_add
  simp only [if_neg hb]

/-- Claim C8: for `amount ≥ 0`, `add_token_transfer` computes
`next = current + amount` in exact arithmetic; a sum outside the `i128`
range fails with `ArithmeticOverflow` (no wraparound), and success stores
exactly the sum. -/
theorem C8_add_token_transfer (s : AssetMap) (p a : Nat) (m : Int)
    (hm : 0 ≤ m) :
    ((i128Min ≤ tokenAmount s p a + m ∧ tokenAmount s p a + m ≤ i128Max) →
      s.add_token_transfer p a m =
        some (Except.ok
          { s with
            token_map :=
              insertKey (p, a) (tokenAmount s p a + m) s.token_map }))
    ∧ (i128Max < tokenAmount s p a + m →
      s.add_token_transfer p a m = some (Except.error Err.arithmeticOverflow))
    ∧ (tokenAmount s p a + m < i128Min →
      s.add_token_transfer p a m =
        some (Except.error Err.arithmeticOverflow)) := by
  have hnm : ¬ m < 0 := not_lt.mpr hm
  refine ⟨fun hb => ?_, fun hb => ?_, fun hb => ?_⟩
  · unfold AssetMap.add_token_transfer
    rw [if_neg hnm, get_next_amount_ok_of_bounds s p a m hb]
  · unfold AssetMap.add_token_transfer
    rw [if_neg hnm,
      get_next_amount_overflow s p a m (fun hc => absurd hc.2 (not_le.mpr hb))]
  · unfold AssetMap.add_token_transfer
    rw [if_neg hnm,
      get_next_amount_overflow s p a m (fun hc => absurd hc.1 (not_le.mpr hb))]

/-- Witness for C8: a fresh map stores `0 + 5` at `(1, 2)`, and adding 1 to
a balance of `i128::MAX` fails with `ArithmeticOverflow`. -/
theorem C8_add_token_transfer_witness :
    AssetMap.new.add_token_transfer 1 2 5 =
      some (Except.ok
        { AssetMap.new with
          token_map :=
            insertKey (1, 2) (tokenAmount AssetMap.new 1 2 + 5)
              AssetMap.new.token_map })
    ∧ am1ex.add_token_transfer 2 10 1 =
        some (Except.error Err.arithmeticOverflow) :=
  ⟨(C8_add_token_transfer AssetMap.new 1 2 5 (by decide)).1 (by decide),
   (C8_add_token_transfer am1ex 2 10 1 (by decide)).2.1 (by decide)⟩

/-- One call made to the external `ClarityDatabase`; the database handle is
modelled as the trace of calls issued to it, most recent first. -/
inductive DbOp where
  | begin
  | commit
  | rollback
deriving DecidableEq

/-- Model of `GlobalContext`: stack of asset maps (head = top), the database handle
(modelled as its call trace), and the stack of read-only flags. -/
structure GlobalContext where
  asset_maps : List AssetMap
  database : List DbOp
  read_only : List Bool
deriving DecidableEq

/-- Model of `GlobalContext::new` with a fresh database handle (empty trace). -/
def GlobalContext.new : GlobalContext := ⟨[], [], []⟩

/-- Model of `GlobalContext::is_top_level`. -/
def GlobalContext.is_top_level (g : GlobalContext) : Bool :=
  g.asset_maps.length = 0

/-- Model of `GlobalContext::is_read_only`: top of the read-only stack, `false` when
the stack is empty (top level defaults to writable). -/
def GlobalContext.is_read_only (g : GlobalContext) : Bool :=
  g.read_only.headD false

/-- Model of `GlobalContext::begin`: push a fresh asset map, `database.begin()`, and
push the current writability (inherited from the parent frame). -/
def GlobalContext.begin (g : GlobalContext) : GlobalContext :=
  { asset_maps := AssetMap.new :: g.asset_maps,
    database := DbOp.begin :: g.database,
    read_only := g.is_read_only :: g.read_only }

/-- Model of `GlobalContext::begin_read_only`: like `begin` but pushes `true`. -/
def GlobalContext.begin_read_only (g : GlobalContext) : GlobalContext :=
  { asset_maps := AssetMap.new :: g.asset_maps,
    database := DbOp.begin :: g.database,
    read_only := true :: g.read_only }

/-- Model of `GlobalContext::roll_back`: pop and discard the top asset map and the
top read-only flag (both asserted present — `none` models the failed
assertion), then `database.roll_back()`. -/
def GlobalContext.roll_back (g : GlobalContext) : Option GlobalContext :=
  match g.asset_maps, g.read_only with
  | _ :: ams, _ :: ros =>
    some { asset_maps := ams, read_only := ros,
           database := DbOp.rollback :: g.database }
  | _, _ => none

/-- Model of `GlobalContext::commit`: pop the read-only flag and the top asset map
(`expect` panic modelled as `none` when no frame is open); with a parent
frame remaining, merge via `commit_other` — on failure `database.roll_back()`
and propagate the error, on success `database.commit()` and return `none`
as the out map; with no parent remaining, `database.commit()` and return the
popped map. -/
def GlobalContext.commit (g : GlobalContext) :
    Option (Except Err (Option AssetMap) × GlobalContext) :=
  match g.asset_maps with
  | [] => none
  | asset_map :: rest =>
    match rest with
    | [] =>
      some (Except.ok (some asset_map),
        { asset_maps := [], read_only := g.read_only.tail,
          database := DbOp.commit :: g.database })
    | tail_back :: rest2 =>
      match tail_back.commit_other asset_map with
      | (Except.error e, tb) =>
        some (Except.error e,
          { asset_maps := tb :: rest2, read_only := g.read_only.tail,
            database := DbOp.rollback :: g.database })
      | (Except.ok _, merged) =>
        some (Except.ok none,
          { asset_maps := merged :: rest2, read_only := g.read_only.tail,
            database := DbOp.commit :: g.database })

/-- Model of `GlobalContext::handle_tx_result`, mirroring the source exactly: an
`Ok(Response)` commits or rolls back according to `committed` and returns
the response; an `Ok` of any other value returns `ContractMustReturnBoolean`
(the source performs NO commit or roll-back on this path); an `Err` rolls
back and is surfaced. -/
def GlobalContext.handle_tx_result (g : GlobalContext)
    (result : Except Err Value) : Option (Except Err Value × GlobalContext) :=
  match result with
  | Except.ok (Value.response committed d) =>
    if committed then
      match g.commit with
      | none => none
      | some (Except.error e, g2) => some (Except.error e, g2)
      | some (Except.ok _, g2) =>
          some (Except.ok (Value.response committed d), g2)
    else
      (g.roll_back).map
        (fun g2 => (Except.ok (Value.response committed d), g2))
  | Except.ok _ => some (Except.error Err.contractMustReturnBoolean, g)
  | Except.error e => (g.roll_back).map (fun g2 => (Except.error e, g2))

/-- Model of `GlobalContext::execute(f)`: `begin`; on error from `f`, roll back and
propagate; on success `commit()?` and return the value. -/
def GlobalContext.execute
    (f : GlobalContext → Except Err Value × GlobalContext)
    (g : GlobalContext) : Option (Except Err Value × GlobalContext) :=
  let g1 := g.begin
  match f g1 with
  | (Except.error e, g2) =>
    (g2.roll_back).map (fun g3 => (Except.error e, g3))
  | (Except.ok v, g2) =>
    match g2.commit with
    | none => none
    | some (Except.error e, g3) => some (Except.error e, g3)
    | some (Except.ok _, g3) => some (Except.ok v, g3)

/-- Model of `Environment::eval_read_only`, with the external collaborators taken as
oracles: `parse` models `parser::parse` (parsed expressions carry no further
information needed here), `get_contract` models
`database.get_contract(contract_name)` (its success payload is unused by the
frame bookkeeping), and `evalF` models the `eval` call on the nested
environment as a transformer of the global context.  The source calls
`get_contract` with `?` AFTER `global_context.begin()`, which is mirrored
here. -/
def Environment.eval_read_only
    (parse : String → Except Err (List Unit))
    (get_contract : String → Except Err Unit)
    (evalF : GlobalContext → Except Err Value × GlobalContext)
    (g : GlobalContext) (contract_name program : String) :
    Option (Except Err Value × GlobalContext) :=
  match parse program with
  | Except.error e => some (Except.error e, g)
  | Except.ok parsed =>
    if parsed.length < 1 then some (Except.error Err.parseError, g)
    else
      let g1 := g.begin
      match get_contract contract_name with
      | Except.error e => some (Except.error e, g1)
      | Except.ok _ =>
        let res := evalF g1
        (res.2.roll_back).map (fun g3 => (res.1, g3))

/-- Model of `Environment::execute_function_as_transaction`, with
`function.is_read_only()` as a flag and `function.execute_apply` on the
nested environment as an oracle transformer of the global context. -/
def Environment.execute_function_as_transaction
    (make_read_only : Bool)
    (execute_apply : GlobalContext → Except Err Value × GlobalContext)
    (g : GlobalContext) : Option (Except Err Value × GlobalContext) :=
  let g1 := if make_read_only then g.begin_read_only else g.begin
  let res := execute_apply g1
  if make_read_only then
    (res.2.roll_back).map (fun g3 => (res.1, g3))
  else
    res.2.handle_tx_result res.1

/-- Model of `Environment::initialize_contract`, with `Contract::initialize` (plus
the subsequent `insert_contract`, which only touches the database contents)
as an oracle transformer of the global context. -/
def Environment.initialize_contract
    (contractInit : GlobalContext → Except Err Unit × GlobalContext)
    (g : GlobalContext) : Option (Except Err Unit × GlobalContext) :=
  let g1 := g.begin
  match contractInit g1 with
  | (Except.ok _, g2) =>
    match g2.commit with
    | none => none
    | some (Except.error e, g3) => some (Except.error e, g3)
    | some (Except.ok _, g3) => some (Except.ok (), g3)
  | (Except.error e, g2) =>
    (g2.roll_back).map (fun g3 => (Except.error e, g3))

/-- Model of `OwnedEnvironment::execute_transaction`, with
`exec_env.execute_contract` as an oracle transformer of the global context;
`none` models the `assert!(is_top_level())` failure.  The source applies `?`
to the `execute_contract` result directly, without rolling back the frame it
itself opened, which is mirrored here. -/
def OwnedEnvironment.execute_transaction
    (execute_contract : GlobalContext → Except Err Value × GlobalContext)
    (g : GlobalContext) :
    Option (Except Err (Value × AssetMap) × GlobalContext) :=
  if g.is_top_level then
    let g1 := g.begin
    match execute_contract g1 with
    | (Except.error e, g2) => some (Except.error e, g2)
    | (Except.ok v, g2) =>
      match g2.commit with
      | none => none
      | some (Except.error e, g3) => some (Except.error e, g3)
      | some (Except.ok none, g3) =>
          some (Except.error Err.failedToConstructAssetTable, g3)
      | some (Except.ok (some am), g3) => some (Except.ok (v, am), g3)
  else none

/-- Claim C5: with at least one open frame, `commit` pops the top read-only
flag and the top asset map; closing the outermost frame performs no merge,
commits the database frame and returns `Ok(Some(popped))`; with a parent
remaining, a successful merge yields `Ok(None)` with `database.commit()`,
and a failed merge rolls the database back, discards the popped map and
propagates the error. -/
theorem C5_global_commit (g : GlobalContext) (am : AssetMap)
    (rest : List AssetMap) (h : g.asset_maps = am :: rest) :
    (rest = [] →
      g.commit = some (Except.ok (some am),
        { asset_maps := [], read_only := g.read_only.tail,
          database := DbOp.commit :: g.database }))
    ∧ (∀ parent rest2, rest = parent :: rest2 →
        ((parent.commit_other am).1 = Except.ok () →
          g.commit = some (Except.ok none,
            { asset_maps := (parent.commit_other am).2 :: rest2,
              read_only := g.read_only.tail,
              database := DbOp.commit :: g.database }))
        ∧ (∀ e, (parent.commit_other am).1 = Except.error e →
          g.commit = some (Except.error e,
            { asset_maps := (parent.commit_other am).2 :: rest2,
              read_only := g.read_only.tail,
              database := DbOp.rollback :: g.database }))) := by
  refine ⟨fun hrest => ?_,
    fun parent rest2 hrest => ⟨fun hok => ?_, fun e herr => ?_⟩⟩
  · subst hrest
    unfold GlobalContext.commit
    rw [h]
  · subst hrest
    unfold GlobalContext.commit
    rw [h]
    rcases hco : parent.commit_other am with ⟨r, st⟩
    rw [hco] at hok
    simp only at hok
    subst hok
    simp only [hco]
  · subst hrest
    unfold GlobalContext.commit
    rw [h]
    rcases hco : parent.commit_other am with ⟨r, st⟩
    rw [hco] at herr
    simp only at herr
    subst herr
    simp only [hco]

/-- Witness for C5 at concrete inputs: an outermost-frame commit returns the
popped map; a nested commit whose merge overflows rolls the database back
and propagates `ArithmeticOverflow`. -/
theorem C5_global_commit_witness :
    GlobalContext.commit ⟨[am1ex], [DbOp.begin], [false]⟩
      = some (Except.ok (some am1ex),
          { asset_maps := [], read_only := [],
            database := [DbOp.commit, DbOp.begin] })
    ∧ GlobalContext.commit ⟨[am2ex, am1ex], [DbOp.begin, DbOp.begin],
          [false, false]⟩
      = some (Except.error Err.arithmeticOverflow,
          { asset_maps := [(am1ex.commit_other am2ex).2],
            read_only := [false],
            database := [DbOp.rollback, DbOp.begin, DbOp.begin] }) :=
  ⟨(C5_global_commit ⟨[am1ex], [DbOp.begin], [false]⟩ am1ex [] rfl).1 rfl,
   ((C5_global_commit ⟨[am2ex, am1ex], [DbOp.begin, DbOp.begin],
        [false, false]⟩ am2ex [am1ex] rfl).2 am1ex [] rfl).2
     Err.arithmeticOverflow rfl⟩

/-- Claim C3 (code-bug evidence): `handle_tx_result` on an `Ok` value that
is not a `Response` returns `ContractMustReturnBoolean` WITHOUT rolling the
frame back — the global context is returned unchanged, the open-frame count
does not decrease and the database frame stays open — contradicting the
specified protocol (roll back and fail).  The last two conjuncts show the
other paths do pop exactly one frame: an `Err` input and an uncommitted
response both roll back. -/
theorem C3_handle_tx_result_nonresponse_no_rollback :
    GlobalContext.new.begin.handle_tx_result (Except.ok (Value.int 3))
      = some (Except.error Err.contractMustReturnBoolean,
          GlobalContext.new.begin)
    ∧ GlobalContext.new.begin.asset_maps.length = 1
    ∧ GlobalContext.new.begin.database = [DbOp.begin]
    ∧ GlobalContext.new.begin.handle_tx_result
        (Except.error Err.parseError)
      = some (Except.error Err.parseError,
          ⟨[], [DbOp.rollback, DbOp.begin], []⟩)
    ∧ GlobalContext.new.begin.handle_tx_result
        (Except.ok (Value.response false (Value.bool false)))
      = some (Except.ok (Value.response false (Value.bool false)),
          ⟨[], [DbOp.rollback, DbOp.begin], []⟩) :=
  ⟨rfl, rfl, rfl, rfl, rfl⟩

/-- Claim C4 (code-bug evidence): three control paths open a frame with
`begin` and return an error without a matching `commit` or `roll_back`:
(1) `eval_read_only` when `database.get_contract` fails after `begin()`;
(2) `execute_function_as_transaction` (non-read-only) when the applied
function returns an `Ok` non-Response value (via the `handle_tx_result`
path of C3); (3) `OwnedEnvironment::execute_transaction` when
`execute_contract` fails, leaking the outer frame.  In each case the
returned context still holds the extra frame and the unmatched
`database.begin`. -/
theorem C4_unbalanced_begin_paths :
    Environment.eval_read_only (fun _ => Except.ok [()])
        (fun _ => Except.error Err.noSuchContract)
        (fun g => (Except.ok (Value.int 0), g))
        GlobalContext.new "c" "prog"
      = some (Except.error Err.noSuchContract, GlobalContext.new.begin)
    ∧ Environment.execute_function_as_transaction false
        (fun g => (Except.ok (Value.int 0), g)) GlobalContext.new
      = some (Except.error Err.contractMustReturnBoolean,
          GlobalContext.new.begin)
    ∧ OwnedEnvironment.execute_transaction
        (fun g => (Except.error Err.noSuchContract, g)) GlobalContext.new
      = some (Except.error Err.noSuchContract, GlobalContext.new.begin)
    ∧ GlobalContext.new.begin.asset_maps.length
        = GlobalContext.new.asset_maps.length + 1
    ∧ GlobalContext.new.begin.database = DbOp.begin :: GlobalContext.new.database :=
  ⟨rfl, rfl, rfl, rfl, rfl⟩

/-- Model of `MAX_CONTEXT_DEPTH = 256`. -/
def MAX_CONTEXT_DEPTH : Nat := 256

/-- Model of `LocalContext`: a lexical frame with an optional parent reference and a
variable table `vars` (the source field `variables`; `ClarityName` is opaque, modelled as `Nat`).  The source
stores a private `depth: u16` that `new` sets to 0 and `extend` sets to
`parent.depth + 1`; those are the only constructors, so the field always
equals the chain length and is derived structurally (`LocalContext.depth`)
rather than stored. -/
inductive LocalContext where
  | root (vars : List (Nat × Value))
  | child (parent : LocalContext) (vars : List (Nat × Value))
deriving DecidableEq

/-- The `depth` field: 0 at a root frame, parent's depth + 1 below it. -/
def LocalContext.depth : LocalContext → Nat
  | LocalContext.root _ => 0
  | LocalContext.child p _ => p.depth + 1

/-- Model of `LocalContext::new`: the root frame, no parent, empty variable table. -/
def LocalContext.new : LocalContext := LocalContext.root []

/-- Model of `LocalContext::extend`: error when `depth >= MAX_CONTEXT_DEPTH`,
otherwise a child frame of `self` with a fresh variable table. -/
def LocalContext.extend (c : LocalContext) : Except Err LocalContext :=
  if MAX_CONTEXT_DEPTH ≤ c.depth then Except.error Err.maxContextDepthReached
  else Except.ok (LocalContext.child c [])

/-- Variable-table lookup (`HashMap<ClarityName, Value>::get`). -/
def vlookup : List (Nat × Value) → Nat → Option Value
  | [], _ => none
  | (k, v) :: rest, n => if n = k then some v else vlookup rest n

/-- Model of `LocalContext::lookup_variable`: search this frame's map, then walk the
parent references; first hit wins, `none` if nothing in the chain binds the
name. -/
def LocalContext.lookup_variable : LocalContext → Nat → Option Value
  | LocalContext.root vars, name => vlookup vars name
  | LocalContext.child parent vars, name =>
    match vlookup vars name with
    | some v => some v
    | none => parent.lookup_variable name

/-- The frame chain of a context, innermost frame first (used to state the
nearest-binding property). -/
def LocalContext.chain : LocalContext → List (List (Nat × Value))
  | LocalContext.root vars => [vars]
  | LocalContext.child parent vars => vars :: parent.chain

/-- Chain `extend` n times, stopping at the first error. -/
def extendN : Nat → LocalContext → Except Err LocalContext
  | 0, c => Except.ok c
  | n + 1, c =>
    match c.extend with
    | Except.ok c2 => extendN n c2
    | Except.error e => Except.error e

/-- Whether an `Except` is a success. -/
def isOkE {ε α : Type} : Except ε α → Bool
  | Except.ok _ => true
  | Except.error _ => false

/-- Claim C6: on any reachable frame (depth at most 256 — the invariant
`new`/`extend` maintain), `extend` fails with `MaxContextDepthReached`
exactly when the depth equals `MAX_CONTEXT_DEPTH = 256` and otherwise
returns a child of `c` of depth `c.depth + 1`; chaining `extend` 256 times
from a root frame succeeds and the 257th call fails. -/
theorem C6_extend_depth_limit (c : LocalContext) (h : c.depth ≤ 256) :
    (c.extend = Except.error Err.maxContextDepthReached ↔ c.depth = 256)
    ∧ (c.depth ≠ 256 → c.extend = Except.ok (LocalContext.child c []))
    ∧ (LocalContext.child c []).depth = c.depth + 1
    ∧ isOkE (extendN 256 LocalContext.new) = true
    ∧ extendN 257 LocalContext.new
        = Except.error Err.maxContextDepthReached := by
  have hM : MAX_CONTEXT_DEPTH = 256 := rfl
  refine ⟨⟨fun he => ?_, fun he => ?_⟩, fun hne => ?_, rfl, rfl, rfl⟩
  · by_cases hd : MAX_CONTEXT_DEPTH ≤ c.depth
    · omega
    · unfold LocalContext.extend at he
      rw [if_neg hd] at he
      cases he
  · unfold LocalContext.extend
    rw [if_pos (by rw [he]; exact hM.le)]
  · have hlt : ¬ MAX_CONTEXT_DEPTH ≤ c.depth := by omega
    unfold LocalContext.extend
    rw [if_neg hlt]

/-- Witness for C6: extending the root frame succeeds with a depth-1 child. -/
theorem C6_extend_depth_limit_witness :
    LocalContext.new.extend
      = Except.ok (LocalContext.child LocalContext.new []) :=
  (C6_extend_depth_limit LocalContext.new (by decide)).2.1 (by decide)

/-- Claim C9: `lookup_variable` returns `none` exactly when no frame in the
chain binds the name, and returns the binding of the nearest frame
(innermost outward) that does bind it; the lookup is a pure read (it is a
function of the context alone and returns no modified state). -/
theorem C9_lookup_variable_nearest (c : LocalContext) (n : Nat) :
    (c.lookup_variable n = none ↔ ∀ fr ∈ c.chain, vlookup fr n = none)
    ∧ (∀ i : Nat, ∀ hi : i < c.chain.length, ∀ v : Value,
        vlookup (c.chain.get ⟨i, hi⟩) n = some v →
        (∀ j : Nat, ∀ hj : j < i,
          vlookup (c.chain.get ⟨j, Nat.lt_trans hj hi⟩) n = none) →
        c.lookup_variable n = some v) := by
  induction c with
  | root vars =>
    constructor
    · simp [LocalContext.lookup_variable, LocalContext.chain]
    · intro i hi v hv _
      have hi0 : i = 0 := by
        simp [LocalContext.chain] at hi
        omega
      subst hi0
      simpa [LocalContext.lookup_variable, LocalContext.chain] using hv
  | child parent vars ih =>
    constructor
    · cases hv : vlookup vars n with
      | some v =>
        simp [LocalContext.lookup_variable, LocalContext.chain, hv]
      | none =>
        simp only [LocalContext.lookup_variable, LocalContext.chain, hv]
        rw [ih.1]
        simp [hv]
    · intro i hi v hv hnone
      cases i with
      | zero =>
        simp only [LocalContext.chain, List.get] at hv
        simp [LocalContext.lookup_variable, hv]
      | succ j =>
        have h0 : vlookup vars n = none := by
          have := hnone 0 (Nat.succ_pos j)
          simpa [LocalContext.chain, List.get] using this
        simp only [LocalContext.lookup_variable, h0]
        have hi2 : j < parent.chain.length := by
          simp [LocalContext.chain] at hi
          omega
        refine ih.2 j hi2 v ?_ ?_
        · simpa [LocalContext.chain, List.get] using hv
        · intro j2 hj2
          have := hnone (j2 + 1) (Nat.succ_lt_succ hj2)
          simpa [LocalContext.chain, List.get] using this

/-- Witness for C9: in a child frame with an empty table whose parent binds
name 5, lookup finds the parent's binding. -/
theorem C9_lookup_variable_nearest_witness :
    (LocalContext.child (LocalContext.root [(5, Value.int 7)])
        []).lookup_variable 5 = some (Value.int 7) :=
  (C9_lookup_variable_nearest
      (LocalContext.child (LocalContext.root [(5, Value.int 7)]) []) 5).2
    1 (by decide) (Value.int 7) (by decide)
    (fun j hj => by
      have hj0 : j = 0 := by omega
      subst hj0
      rfl)

/-- Model of `CallStack`: the ordered stack (head = most recent push) plus the fast
membership set for tracked entries.  `FunctionIdentifier` is opaque and
modelled as `Nat`; the `HashSet` is a `Finset`. -/
structure CallStack where
  stack : List Nat
  set : Finset Nat
deriving DecidableEq

/-- Model of `CallStack::new`. -/
def CallStack.new : CallStack := ⟨[], ∅⟩

/-- Model of `CallStack::depth`. -/
def CallStack.depth (cs : CallStack) : Nat := cs.stack.length

/-- Model of `CallStack::contains`: membership in the tracked set. -/
def CallStack.contains (cs : CallStack) (function : Nat) : Bool :=
  decide (function ∈ cs.set)

/-- Model of `CallStack::insert`: push on the stack; when `track`, also add to the
set. -/
def CallStack.insert (cs : CallStack) (function : Nat) (track : Bool) :
    CallStack :=
  { stack := function :: cs.stack,
    set := if track then Insert.insert function cs.set else cs.set }

/-- Outcome of `CallStack::remove`: success or recoverable error (each with
the resulting state, since the source mutates `self` in place) or panic. -/
inductive RemoveOutcome where
  | ok (cs : CallStack)
  | err (cs : CallStack)
  | fatal
deriving DecidableEq

/-- Model of `CallStack::remove`: pop the stack (popping an empty stack is a
recoverable error with the state unchanged); a popped id different from the
requested one is a recoverable error returned AFTER the pop already
happened; for a tracked removal, absence from the set is a fatal panic,
otherwise the id is erased from the set. -/
def CallStack.remove (cs : CallStack) (function : Nat) (tracked : Bool) :
    RemoveOutcome :=
  match cs.stack with
  | removed :: rest =>
    if removed ≠ function then RemoveOutcome.err { cs with stack := rest }
    else if tracked ∧ function ∉ cs.set then RemoveOutcome.fatal
    else RemoveOutcome.ok
      { stack := rest,
        set := if tracked then cs.set.erase function else cs.set }
  | [] => RemoveOutcome.err cs

/-- One `CallStack` operation, for stating the C7 history property. -/
inductive Op where
  | insert (function : Nat) (track : Bool)
  | remove (function : Nat) (tracked : Bool)
deriving DecidableEq

/-- Run a sequence of inserts and removes from `cs`, requiring every remove
to succeed (`none` when any remove returns an error or panics). -/
def runOps : CallStack → List Op → Option CallStack
  | cs, [] => some cs
  | cs, Op.insert f t :: rest => runOps (cs.insert f t) rest
  | cs, Op.remove f t :: rest =>
    match cs.remove f t with
    | RemoveOutcome.ok cs2 => runOps cs2 rest
    | _ => none

theorem remove_nil (cs : CallStack) (f : Nat) (t : Bool)
    (hs : cs.stack = []) : cs.remove f t = RemoveOutcome.err cs := by
  unfold CallStack.remove
  rw [hs]

theorem remove_cons (cs : CallStack) (f x : Nat) (rest : List Nat) (t : Bool)
    (hs : cs.stack = x :: rest) :
    cs.remove f t =
      if x ≠ f then RemoveOutcome.err { cs with stack := rest }
      else if t ∧ f ∉ cs.set then RemoveOutcome.fatal
      else RemoveOutcome.ok
        { stack := rest, set := if t then cs.set.erase f else cs.set } := by
  unfold CallStack.remove
  rw [hs]

theorem remove_ok_set (cs cs2 : CallStack) (f : Nat) (t : Bool)
    (h : cs.remove f t = RemoveOutcome.ok cs2) :
    cs2.set = if t then cs.set.erase f else cs.set := by
  cases hs : cs.stack with
  | nil =>
    rw [remove_nil cs f t hs] at h
    cases h
  | cons x rest =>
    rw [remove_cons cs f x rest t hs] at h
    by_cases hx : x ≠ f
    · rw [if_pos hx] at h; cases h
    · rw [if_neg hx] at h
      by_cases ht : t = true ∧ f ∉ cs.set
      · rw [if_pos ht] at h; cases h
      · rw [if_neg ht] at h
        cases h
        rfl

theorem lastIns_cons (op : Op) (rest : List Op) (id : Nat) :
    (∃ l r, op :: rest = l ++ Op.insert id true :: r
      ∧ Op.remove id true ∉ r)
    ↔ ((op = Op.insert id true ∧ Op.remove id true ∉ rest)
        ∨ (∃ l r, rest = l ++ Op.insert id true :: r
            ∧ Op.remove id true ∉ r)) := by
  constructor
  · rintro ⟨l, r, hl, hr⟩
    cases l with
    | nil =>
      simp only [List.nil_append, List.cons.injEq] at hl
      exact Or.inl ⟨hl.1, by rw [hl.2]; exact hr⟩
    | cons a l2 =>
      simp only [List.cons_append, List.cons.injEq] at hl
      exact Or.inr ⟨l2, r, hl.2, hr⟩
  · rintro (⟨h1, h2⟩ | ⟨l, r, hl, hr⟩)
    · exact ⟨[], rest, by simp [h1], h2⟩
    · exact ⟨op :: l, r, by simp [hl], hr⟩

theorem runOps_set_inv (ops : List Op) (cs0 cs : CallStack)
    (h : runOps cs0 ops = some cs) (id : Nat) :
    id ∈ cs.set ↔
      (∃ l r, ops = l ++ Op.insert id true :: r ∧ Op.remove id true ∉ r)
      ∨ (id ∈ cs0.set ∧ Op.remove id true ∉ ops) := by
  induction ops generalizing cs0 with
  | nil =>
    unfold runOps at h
    cases h
    simp
  | cons op rest ih =>
    cases op with
    | insert j t =>
      have h2 : runOps (cs0.insert j t) rest = some cs := h
      have hmem : id ∈ (cs0.insert j t).set
          ↔ (t = true ∧ id = j) ∨ id ∈ cs0.set := by
        unfold CallStack.insert
        cases t <;> simp [Finset.mem_insert]
      have hih := ih (cs0.insert j t) h2
      rw [hmem] at hih
      rw [hih, lastIns_cons]
      have hne : (Op.remove id true ∉ Op.insert j t :: rest)
          ↔ Op.remove id true ∉ rest := by simp
      have hop : (Op.insert j t = Op.insert id true) ↔ (j = id ∧ t = true) := by
        simp [Op.insert.injEq]
      rw [hne, hop]
      constructor
      · rintro (hl | ⟨⟨ht, hij⟩ | h0, hnr⟩)
        · exact Or.inl (Or.inr hl)
        · exact Or.inl (Or.inl ⟨⟨hij.symm, ht⟩, hnr⟩)
        · exact Or.inr ⟨h0, hnr⟩
      · rintro ((⟨⟨hji, ht⟩, hnr⟩ | hl) | ⟨h0, hnr⟩)
        · exact Or.inr ⟨Or.inl ⟨ht, hji.symm⟩, hnr⟩
        · exact Or.inl hl
        · exact Or.inr ⟨Or.inr h0, hnr⟩
    | remove j t =>
      have h2 : (match cs0.remove j t with
          | RemoveOutcome.ok cs2 => runOps cs2 rest
          | _ => none) = some cs := h
      cases hr : cs0.remove j t with
      | ok cs2 =>
        rw [hr] at h2
        have hset := remove_ok_set cs0 cs2 j t hr
        have hih := ih cs2 h2
        have hnotins : ¬ (Op.remove j t = Op.insert id true) := by simp
        by_cases hjt : t = true ∧ j = id
        · obtain ⟨ht, hj⟩ := hjt
          subst ht
          subst hj
          have hgone : j ∉ cs2.set := by
            rw [hset]
            simp [Finset.mem_erase]
          rw [hih, lastIns_cons]
          have hmemops : Op.remove j true ∈ Op.remove j true :: rest := by
            simp
          constructor
          · rintro (hl | ⟨h0, hnr⟩)
            · exact Or.inl (Or.inr hl)
            · exact absurd h0 hgone
          · rintro ((⟨hop, _⟩ | hl) | ⟨h0, hnr⟩)
            · exact absurd hop hnotins
            · exact Or.inl hl
            · exact absurd hmemops hnr
        · have hpres : id ∈ cs2.set ↔ id ∈ cs0.set := by
            rw [hset]
            cases t with
            | false => simp
            | true =>
              have hj : j ≠ id := fun hj => hjt ⟨rfl, hj⟩
              simp [Finset.mem_erase, Ne.symm hj]
          have hnr2 : (Op.remove id true ∉ Op.remove j t :: rest)
              ↔ Op.remove id true ∉ rest := by
            simp only [List.mem_cons, not_or]
            constructor
            · exact fun hc => hc.2
            · intro hc
              refine ⟨fun hc2 => ?_, hc⟩
              cases hc2
              exact hjt ⟨rfl, rfl⟩
          rw [hih, hpres, lastIns_cons, hnr2]
          constructor
          · rintro (hl | ⟨h0, hnr⟩)
            · exact Or.inl (Or.inr hl)
            · exact Or.inr ⟨h0, hnr⟩
          · rintro ((⟨hop, _⟩ | hl) | ⟨h0, hnr⟩)
            · exact absurd hop hnotins
            · exact Or.inl hl
            · exact Or.inr ⟨h0, hnr⟩
      | err cs2 => rw [hr] at h2; cases h2
      | fatal => rw [hr] at h2; cases h2

/-- Claim C7: after any sequence of inserts and successful removes applied
to a fresh `CallStack`, `contains id` holds exactly when some
`insert(id, true)` occurs in the sequence with no `remove(id, true)`
anywhere after it. -/
theorem C7_contains_tracked_history (ops : List Op) (cs : CallStack)
    (id : Nat) (h : runOps CallStack.new ops = some cs) :
    cs.contains id = true ↔
      ∃ l r, ops = l ++ Op.insert id true :: r
        ∧ Op.remove id true ∉ r := by
  have hinv := runOps_set_inv ops CallStack.new cs h id
  have hnew : id ∉ CallStack.new.set := by
    simp [CallStack.new]
  rw [CallStack.contains, decide_eq_true_iff, hinv]
  constructor
  · rintro (hl | ⟨h0, _⟩)
    · exact hl
    · exact absurd h0 hnew
  · exact Or.inl

/-- Witness for C7: after a tracked insert of 1, `contains 1` holds. -/
theorem C7_contains_tracked_history_witness :
    (CallStack.new.insert 1 true).contains 1 = true := by
  have h := C7_contains_tracked_history [Op.insert 1 true]
    (CallStack.new.insert 1 true) 1 rfl
  exact h.mpr ⟨[], [], rfl, by simp⟩

/-- Claim C10: removing from a non-empty stack whose top differs from the
requested id returns a recoverable interpreter error, but the pop has
already happened: the stack in the returned state is the tail, one shorter,
and the tracked set is untouched — the state is not restored on this error
path. -/
theorem C10_remove_mismatch_already_popped (cs : CallStack) (f x : Nat)
    (rest : List Nat) (tracked : Bool) (hs : cs.stack = x :: rest)
    (hx : x ≠ f) :
    cs.remove f tracked = RemoveOutcome.err { cs with stack := rest }
    ∧ ({ cs with stack := rest } : CallStack).stack.length + 1
        = cs.stack.length
    ∧ ({ cs with stack := rest } : CallStack).set = cs.set := by
  refine ⟨?_, by simp [hs], rfl⟩
  rw [remove_cons cs f x rest tracked hs]
  rw [if_pos hx]

/-- Witness for C10: removing 2 when the top is 1 errors with the stack
already popped. -/
theorem C10_remove_mismatch_already_popped_witness :
    CallStack.remove ⟨[1, 3], ∅⟩ 2 true
      = RemoveOutcome.err ⟨[3], ∅⟩
    ∧ (RemoveOutcome.err (⟨[3], ∅⟩ : CallStack)
        = RemoveOutcome.err ⟨[3], ∅⟩) :=
  ⟨(C10_remove_mismatch_already_popped ⟨[1, 3], ∅⟩ 2 1 [3] true rfl
      (by decide)).1,
   rfl⟩

end Clarity
